import Mathlib

/-!
# Verification of the expense-based micro-investment pipeline

Shallow embedding of the transaction pipeline (parse → validate → period
rules) and the returns/tax engine of the retirement-savings API, together
with the frontend API client's `request` helper.

The backend services (parser, validator, period engine, returns, tax) are
not shipped in this repository snapshot — only their interface types
(`frontend/src/types/index.ts`), the playground UI and the README are.
Those components are therefore modelled from the specification text, as
marked on each definition.  The API client (`request`) is translated
directly from the frontend source (`api/client.ts`).

Conventions: timestamps are modelled as integers (the serialized
`"YYYY-MM-DD HH:MM:SS"` local-naive timestamps are totally ordered and
compared with `≤`; all intervals are closed).  Monetary values and rates
are exact rationals; annual rates are stored as fractions (NPS 7.11% =
711/10000), and the `inflation` parameter is likewise a fraction.
-/

/-- An input expense record: `{date, amount}` (types/index.ts, `Expense`). -/
structure Expense where
  date : ℤ
  amount : ℚ
deriving DecidableEq, Repr

/-- A parsed transaction: `{date, amount, ceiling, remanent}`
(types/index.ts, `Transaction`). -/
structure Transaction where
  date : ℤ
  amount : ℚ
  ceiling : ℚ
  remanent : ℚ
deriving DecidableEq, Repr

/-- A rejected transaction with its diagnostic message
(types/index.ts, `InvalidTransaction`; `ceiling`/`remanent` are optional
there and are filled in by the validator). -/
structure InvalidTransaction where
  date : ℤ
  amount : ℚ
  ceiling : Option ℚ
  remanent : Option ℚ
  message : String
deriving DecidableEq, Repr

/-- A fixed-bonus window (types/index.ts, `QPeriod`). -/
structure QPeriod where
  fixed : ℚ
  start : ℤ
  «end» : ℤ
deriving DecidableEq, Repr

/-- A percentage-bonus window (types/index.ts, `PPeriod`). -/
structure PPeriod where
  extra : ℚ
  start : ℤ
  «end» : ℤ
deriving DecidableEq, Repr

/-- An investment-horizon window (types/index.ts, `KPeriod`). -/
structure KPeriod where
  start : ℤ
  «end» : ℤ
deriving DecidableEq, Repr

/-- A valid transaction after period application, tagged with K-membership
(types/index.ts, `ValidFilteredTransaction`). -/
structure ValidFilteredTransaction where
  date : ℤ
  amount : ℚ
  ceiling : ℚ
  remanent : ℚ
  inKPeriod : Bool
deriving DecidableEq, Repr

/-- One row of the returns projection (types/index.ts, `SavingsByDate`). -/
structure SavingsByDate where
  start : ℤ
  «end» : ℤ
  amount : ℚ
  profit : ℚ
  taxBenefit : ℚ
deriving DecidableEq, Repr

/-- The returns endpoint response (types/index.ts, `ReturnsResponse`). -/
structure ReturnsResponse where
  totalTransactionAmount : ℚ
  totalCeiling : ℚ
  savingsByDates : List SavingsByDate
deriving DecidableEq, Repr

/-- An investment strategy: name, annual growth rate (as a fraction) and
tax-deductibility flag (spec §4.4). -/
structure Strategy where
  name : String
  annualRate : ℚ
  taxDeductible : Bool
deriving DecidableEq, Repr

/-- Modelled from the spec: the NPS strategy — 7.11% annual, deductible. -/
def npsStrategy : Strategy := ⟨"NPS", 711 / 10000, true⟩

/-- Modelled from the spec: the Index strategy — 14.49% annual, not
deductible. -/
def indexStrategy : Strategy := ⟨"Index", 1449 / 10000, false⟩

/-- One progressive-tax band: income between `lower` and `upper` is taxed
at `rate` (spec §4.5; the concrete slab table is a startup constant not
shown in the repository, so computations are parameterized over it). -/
structure TaxBand where
  lower : ℚ
  upper : ℚ
  rate : ℚ
deriving DecidableEq, Repr

/-- Modelled from the spec: ceiling of an amount — the smallest multiple of
100 not less than the amount for positive amounts; for non-positive amounts
the ceiling is 0 (spec §4.1). -/
def ceilingOf (a : ℚ) : ℚ :=
  if a ≤ 0 then 0 else 100 * (⌈a / 100⌉ : ℤ)

/-- Modelled from the spec: build one transaction from one expense —
`remanent = ceiling - amount` (spec §3, §4.1). -/
def mkTransaction (e : Expense) : Transaction :=
  ⟨e.date, e.amount, ceilingOf e.amount, ceilingOf e.amount - e.amount⟩

/-- Modelled from the spec: `ExpenseParser.parse` — pure, total, order
preserving, no rejection (spec §4.1). -/
def parse (es : List Expense) : List Transaction :=
  es.map mkTransaction

/-- Modelled from the spec: the invalid record produced when a transaction
fails validation (spec §4.2). -/
def mkInvalid (t : Transaction) (msg : String) : InvalidTransaction :=
  ⟨t.date, t.amount, some t.ceiling, some t.remanent, msg⟩

/-- Modelled from the spec: one step of the validator's single left-to-right
pass, first violation wins — negative amount first, then duplicate
`(date, amount)` among the accepted valid transactions (spec §4.2). -/
def validateStep (acc : List Transaction × List InvalidTransaction)
    (t : Transaction) : List Transaction × List InvalidTransaction :=
  if t.amount < 0 then
    (acc.1, acc.2 ++ [mkInvalid t "negative amount"])
  else if acc.1.any fun u => decide (u.date = t.date ∧ u.amount = t.amount) then
    (acc.1, acc.2 ++ [mkInvalid t "duplicate transaction"])
  else
    (acc.1 ++ [t], acc.2)

/-- Modelled from the spec: `TransactionValidator.validate` — partitions the
input into valid/invalid in a single pass; the `wage` argument is carried by
the request but plays no role in the two rules (spec §4.2). -/
def validate (wage : ℚ) (ts : List Transaction) :
    List Transaction × List InvalidTransaction :=
  ts.foldl validateStep ([], [])

/-- The transaction underlying an invalid record (drops the message; the
optional fields are always populated by the validator). -/
def underlyingTx (i : InvalidTransaction) : Transaction :=
  ⟨i.date, i.amount, i.ceiling.getD 0, i.remanent.getD 0⟩

/-- Modelled from the spec: closed-interval containment
`start ≤ t ≤ end` (spec §3, §9 `contains`). -/
def containsDate (s e d : ℤ) : Prop :=
  s ≤ d ∧ d ≤ e

instance (s e d : ℤ) : Decidable (containsDate s e d) := by
  unfold containsDate; infer_instance

/-- Modelled from the spec: the Q pass on one transaction — for each
`QPeriod` containing the date, add `fixed` to the remanent, accumulating
additively in array order (spec §4.3). -/
def applyQ (qs : List QPeriod) (d : ℤ) (r : ℚ) : ℚ :=
  qs.foldl (fun acc qp => if containsDate qp.start qp.«end» d then acc + qp.fixed else acc) r

/-- Modelled from the spec: the P pass on one transaction — for each
`PPeriod` containing the date, add `base * extra / 100`, where `base` is the
remanent value before any P-pass adjustment (spec §4.3). -/
def applyP (ps : List PPeriod) (d : ℤ) (base : ℚ) : ℚ :=
  ps.foldl (fun acc pp => if containsDate pp.start pp.«end» d then acc + base * pp.extra / 100 else acc) base

/-- Modelled from the spec: K tagging — true iff the date falls within at
least one `KPeriod` (spec §4.3). -/
def inAnyK (ks : List KPeriod) (d : ℤ) : Bool :=
  ks.any fun kp => decide (containsDate kp.start kp.«end» d)

/-- Modelled from the spec: `PeriodRuleEngine.applyPeriods` — Q pass, then P
pass, then K tagging; every valid transaction is returned (spec §4.3). -/
def applyPeriods (valid : List Transaction) (qs : List QPeriod)
    (ps : List PPeriod) (ks : List KPeriod) : List ValidFilteredTransaction :=
  valid.map fun t =>
    ⟨t.date, t.amount, t.ceiling, applyP ps t.date (applyQ qs t.date t.remanent),
      inAnyK ks t.date⟩

/-- Modelled from the spec: the K period a transaction is attributed to for
aggregation — the earliest-starting matching period (first in array order on
ties), returned with its index in the `k` array (spec §4.3, §4.5). -/
def attributedK (ks : List KPeriod) (d : ℤ) : Option (ℕ × KPeriod) :=
  match ks.enum.filter (fun ik => decide (containsDate ik.2.start ik.2.«end» d)) with
  | [] => none
  | m :: ms => some (ms.foldl (fun best ik => if ik.2.start < best.2.start then ik else best) m)

/-- Modelled from the spec: the group of transactions attributed to the
`i`-th K period — tagged `inKPeriod` and attributed there (spec §4.6). -/
def bucketGroup (ks : List KPeriod) (vts : List ValidFilteredTransaction)
    (i : ℕ) : List ValidFilteredTransaction :=
  vts.filter fun t => t.inKPeriod && decide ((attributedK ks t.date).map Prod.fst = some i)

/-- Modelled from the spec: the non-empty aggregation buckets, one per
K period that contains at least one qualifying transaction, carrying the
summed adjusted remanent (spec §4.6). -/
def savingsBuckets (ks : List KPeriod) (vts : List ValidFilteredTransaction) :
    List (KPeriod × ℚ) :=
  ks.enum.filterMap fun ik =>
    let g := bucketGroup ks vts ik.1
    if g.isEmpty then none
    else some (ik.2, (g.map (fun t => t.remanent)).sum)

/-- Modelled from the spec: compound profit of a bucket amount —
`amount * ((1 + effectiveRate) ^ yearsToRetirement - 1)` with
`effectiveRate = annualRate - inflation` and
`yearsToRetirement = 60 - age` (spec §4.6). -/
def profitOf (strat : Strategy) (inflation : ℚ) (age : ℕ) (amt : ℚ) : ℚ :=
  amt * ((1 + (strat.annualRate - inflation)) ^ (60 - age) - 1)

/-- Modelled from the spec: `TaxCalculator.slabTax` — progressive
marginal-slab tax: each band's excess is taxed at the band's own rate and
the parts are summed (spec §4.5). -/
def slabTax (bands : List TaxBand) (w : ℚ) : ℚ :=
  (bands.map fun b => b.rate * max 0 (min w b.upper - b.lower)).sum

/-- Modelled from the spec: `TaxCalculator.benefit` — the marginal tax saved
by a deduction: `slabTax wage - slabTax (wage - deduction)` (spec §4.5). -/
def taxBenefitOf (bands : List TaxBand) (w d : ℚ) : ℚ :=
  slabTax bands w - slabTax bands (w - d)

/-- Modelled from the spec: one `SavingsByDate` row from one bucket —
profit by compound growth, tax benefit only for deductible strategies, with
the deduction capped (spec §4.6). -/
def rowOf (bands : List TaxBand) (cap : ℚ) (strat : Strategy) (wage inflation : ℚ)
    (age : ℕ) (b : KPeriod × ℚ) : SavingsByDate :=
  ⟨b.1.start, b.1.«end», b.2, profitOf strat inflation age b.2,
    if strat.taxDeductible then taxBenefitOf bands wage (min b.2 cap) else 0⟩

/-- Modelled from the spec: the valid transactions of a request after the
full parse → validate → period pipeline (spec §2, §4.6). -/
def adjustedValid (wage : ℚ) (qs : List QPeriod) (ps : List PPeriod)
    (ks : List KPeriod) (es : List Expense) : List ValidFilteredTransaction :=
  applyPeriods (validate wage (parse es)).1 qs ps ks

/-- Modelled from the spec: `ReturnsEngine.compute` — totals over the valid
transactions and one savings row per non-empty K bucket (spec §4.6). -/
def compute (bands : List TaxBand) (cap : ℚ) (strat : Strategy) (age : ℕ)
    (wage inflation : ℚ) (qs : List QPeriod) (ps : List PPeriod)
    (ks : List KPeriod) (es : List Expense) : ReturnsResponse :=
  let vts := adjustedValid wage qs ps ks es
  ⟨(vts.map fun t => t.amount).sum, (vts.map fun t => t.ceiling).sum,
    (savingsBuckets ks vts).map (rowOf bands cap strat wage inflation age)⟩

/-! ## The frontend API client (from source: `api/client.ts`) -/

/-- A JSON value, as produced by `Response.json()`. -/
inductive Json where
  | null : Json
  | bool : Bool → Json
  | num : ℚ → Json
  | str : String → Json
  | arr : List Json → Json
  | obj : List (String × Json) → Json

/-- JavaScript truthiness of a JSON value (`undefined` is handled at the
use sites through `Option`). -/
def jsTruthy : Json → Bool
  | Json.null => false
  | Json.bool b => b
  | Json.num q => decide (q ≠ 0)
  | Json.str s => decide (s ≠ "")
  | Json.arr _ => true
  | Json.obj _ => true

/-- One-level rendering of an array element for JS `Array.prototype.join`
(nested structure is not exercised by any claim). -/
def jsStringShallow : Json → String
  | Json.str s => s
  | Json.null => ""
  | Json.bool b => cond b "true" "false"
  | Json.num q => toString q
  | Json.arr _ => ""
  | Json.obj _ => "[object Object]"

/-- JavaScript `String(·)` conversion of a JSON value, used by the `Error`
constructor on a non-string argument. -/
def jsString : Json → String
  | Json.null => "null"
  | Json.bool b => cond b "true" "false"
  | Json.num q => toString q
  | Json.str s => s
  | Json.arr xs => String.intercalate "," (xs.map jsStringShallow)
  | Json.obj _ => "[object Object]"

/-- The message of the `TypeError` JavaScript throws when a property is
read from `null` (as `err.detail` does when the error body is JSON `null`). -/
def nullPropertyAccessMsg : String := "TypeError: cannot read properties of null"

/-- Property access `j.detail`, as JavaScript evaluates `err.detail`:
reading a property from `null` throws a `TypeError`; an object yields its
`detail` field (first binding); every other value (whose boxed wrapper has
no `detail` property) yields `undefined`, modelled as `none`. -/
def getDetail : Json → Except String (Option Json)
  | Json.null => Except.error nullPropertyAccessMsg
  | Json.obj fields => Except.ok (fields.lookup "detail")
  | _ => Except.ok none

/-- An HTTP response as seen by `fetch`: `ok`, `status`, `statusText` and
the body, which is `some j` exactly when the body text parses as JSON `j`
(`res.json()` rejects otherwise). -/
structure HttpResponse where
  ok : Bool
  status : ℕ
  statusText : String
  body : Option Json

/-- The message `res.json()` rejects with on a non-JSON body. -/
def jsonParseFailureMsg : String := "SyntaxError: unexpected token in JSON"

/-- From source (`api/client.ts`, `request`): if `res.ok` fails, build
`err` from the parsed error body (falling back to `{detail: res.statusText}`
when it is not JSON), read `err.detail` — which itself throws a `TypeError`
when the body is JSON `null` — and throw
`Error(err.detail || "HTTP <status>")`; otherwise return `res.json()`,
which throws when the body is not JSON. -/
def request (res : HttpResponse) : Except String Json :=
  if res.ok then
    match res.body with
    | some j => Except.ok j
    | none => Except.error jsonParseFailureMsg
  else
    let errDetail : Except String (Option Json) :=
      match res.body with
      | some j => getDetail j
      | none => getDetail (Json.obj [("detail", Json.str res.statusText)])
    match errDetail with
    | Except.error msg => Except.error msg
    | Except.ok d? =>
      Except.error
        (match d? with
          | some d => if jsTruthy d then jsString d else "HTTP " ++ toString res.status
          | none => "HTTP " ++ toString res.status)

/-! ## Helper lemmas -/

theorem ceilingOf_nonpos {a : ℚ} (h : a ≤ 0) : ceilingOf a = 0 := by
  rw [ceilingOf, if_pos h]

theorem ceilingOf_pos {a : ℚ} (h : 0 < a) :
    ceilingOf a = 100 * (⌈a / 100⌉ : ℤ) := by
  rw [ceilingOf, if_neg (not_le.2 h)]

theorem ceilingOf_eval (a : ℚ) (n : ℤ) (h0 : 0 < a) (h1 : a ≤ 100 * n)
    (h2 : 100 * (n - 1) < a) : ceilingOf a = 100 * n := by
  rw [ceilingOf_pos h0]
  have hn : (⌈a / 100⌉ : ℤ) = n := by
    rw [Int.ceil_eq_iff]
    constructor
    · linarith
    · linarith
  rw [hn]

/-! ## C1 and C8: the parser -/

/-- C1: for every expense with positive amount, the transaction produced by
`parse` has a ceiling that is a multiple of 100, at least the amount, less
than the amount plus 100, and a remanent equal to `ceiling - amount` lying
in `[0, 100)`. -/
theorem parse_ceiling_remanent_invariant (es : List Expense) (t : Transaction)
    (ht : t ∈ parse es) (hpos : 0 < t.amount) :
    (∃ k : ℤ, t.ceiling = 100 * k) ∧ t.amount ≤ t.ceiling ∧
      t.ceiling - 100 < t.amount ∧ t.remanent = t.ceiling - t.amount ∧
      0 ≤ t.remanent ∧ t.remanent < 100 := by
  rw [parse, List.mem_map] at ht
  obtain ⟨e, -, rfl⟩ := ht
  have hpos' : 0 < e.amount := hpos
  have hc : (mkTransaction e).ceiling = 100 * ((⌈e.amount / 100⌉ : ℤ) : ℚ) := by
    show ceilingOf e.amount = _
    rw [ceilingOf_pos hpos']
  have hle : e.amount ≤ 100 * ((⌈e.amount / 100⌉ : ℤ) : ℚ) := by
    have h : e.amount / 100 ≤ ((⌈e.amount / 100⌉ : ℤ) : ℚ) := Int.le_ceil _
    linarith
  have hlt : 100 * ((⌈e.amount / 100⌉ : ℤ) : ℚ) - 100 < e.amount := by
    have h : ((⌈e.amount / 100⌉ : ℤ) : ℚ) < e.amount / 100 + 1 :=
      Int.ceil_lt_add_one _
    linarith
  have hrem : (mkTransaction e).remanent = 100 * ((⌈e.amount / 100⌉ : ℤ) : ℚ) - e.amount := by
    show ceilingOf e.amount - e.amount = _
    rw [ceilingOf_pos hpos']
  refine ⟨⟨⌈e.amount / 100⌉, hc⟩, ?_, ?_, rfl, ?_, ?_⟩
  · rw [hc]
    exact hle
  · rw [hc]
    exact hlt
  · rw [hrem]
    linarith
  · rw [hrem]
    linarith

/-- C1 witness: the expense `{date 0, amount 250}` parses to ceiling 300 and
remanent 50, satisfying the invariant. -/
theorem parse_ceiling_remanent_invariant_witness :
    (∃ k : ℤ, (⟨0, 250, 300, 50⟩ : Transaction).ceiling = 100 * k) ∧
      (⟨0, 250, 300, 50⟩ : Transaction).amount ≤ (⟨0, 250, 300, 50⟩ : Transaction).ceiling ∧
      (⟨0, 250, 300, 50⟩ : Transaction).ceiling - 100 < (⟨0, 250, 300, 50⟩ : Transaction).amount ∧
      (⟨0, 250, 300, 50⟩ : Transaction).remanent =
        (⟨0, 250, 300, 50⟩ : Transaction).ceiling - (⟨0, 250, 300, 50⟩ : Transaction).amount ∧
      0 ≤ (⟨0, 250, 300, 50⟩ : Transaction).remanent ∧
      (⟨0, 250, 300, 50⟩ : Transaction).remanent < 100 := by
  have hc : ceilingOf 250 = 300 := by
    rw [ceilingOf_eval 250 3 (by norm_num) (by norm_num) (by norm_num)]
    norm_num
  refine parse_ceiling_remanent_invariant [⟨0, 250⟩] _ ?_ (by norm_num)
  simp [parse, mkTransaction, hc]
  norm_num

/-- C8: `parse` is total and rejects nothing — it maps the input list
elementwise in order, and for a non-positive amount the ceiling is 0 and the
remanent is the negated amount. -/
theorem parse_total_and_nonpositive (es : List Expense) :
    (parse es).length = es.length ∧
    (∀ (i : ℕ) (h : i < es.length),
      (parse es).get ⟨i, by simpa [parse] using h⟩ = mkTransaction (es.get ⟨i, h⟩)) ∧
    (∀ e : Expense, e.amount ≤ 0 →
      (mkTransaction e).ceiling = 0 ∧ (mkTransaction e).remanent = -e.amount) := by
  refine ⟨by simp [parse], ?_, ?_⟩
  · intro i h
    simp [parse]
  · intro e he
    constructor
    · show ceilingOf e.amount = 0
      exact ceilingOf_nonpos he
    · show ceilingOf e.amount - e.amount = -e.amount
      rw [ceilingOf_nonpos he]
      ring

/-- C8 witness: the single-element list with amount -250 parses in place to
ceiling 0 and remanent 250. -/
theorem parse_total_and_nonpositive_witness :
    (parse [⟨0, -250⟩]).length = 1 ∧
      (parse [(⟨0, -250⟩ : Expense)]).get ⟨0, by simp [parse]⟩ = mkTransaction ⟨0, -250⟩ ∧
      (mkTransaction (⟨0, -250⟩ : Expense)).ceiling = 0 ∧
      (mkTransaction (⟨0, -250⟩ : Expense)).remanent = 250 := by
  obtain ⟨h1, h2, h3⟩ := parse_total_and_nonpositive [⟨0, -250⟩]
  obtain ⟨h4, h5⟩ := h3 ⟨0, -250⟩ (by norm_num)
  exact ⟨h1, h2 0 (by norm_num), h4, by rw [h5]; norm_num⟩

/-! ## C2 and C9: the validator -/

theorem underlyingTx_mkInvalid (t : Transaction) (msg : String) :
    underlyingTx (mkInvalid t msg) = t := rfl

theorem validateStep_neg {t : Transaction} (acc : List Transaction × List InvalidTransaction)
    (h : t.amount < 0) :
    validateStep acc t = (acc.1, acc.2 ++ [mkInvalid t "negative amount"]) := by
  rw [validateStep, if_pos h]

theorem validateStep_dup {t : Transaction} (acc : List Transaction × List InvalidTransaction)
    (h : ¬t.amount < 0)
    (hd : (acc.1.any fun u => decide (u.date = t.date ∧ u.amount = t.amount)) = true) :
    validateStep acc t = (acc.1, acc.2 ++ [mkInvalid t "duplicate transaction"]) := by
  rw [validateStep, if_neg h, if_pos hd]

theorem validateStep_ok {t : Transaction} (acc : List Transaction × List InvalidTransaction)
    (h : ¬t.amount < 0)
    (hd : (acc.1.any fun u => decide (u.date = t.date ∧ u.amount = t.amount)) = false) :
    validateStep acc t = (acc.1 ++ [t], acc.2) := by
  rw [validateStep, if_neg h, hd]
  simp

theorem validate_append_singleton (wage : ℚ) (xs : List Transaction) (t : Transaction) :
    validate wage (xs ++ [t]) = validateStep (validate wage xs) t := by
  simp [validate, List.foldl_append]

/-- C2: the validator classifies items left to right, first violation wins —
a negative amount is always rejected as "negative amount" (even if it
duplicates an earlier pair), a repeat of an accepted `(date, amount)` pair
is rejected as "duplicate transaction", anything else is appended to the
valid list; in particular of two identical non-negative items the first is
valid and the second invalid. -/
theorem validate_classification (wage : ℚ) (xs : List Transaction) (t : Transaction) :
    (t.amount < 0 →
      validate wage (xs ++ [t]) =
        ((validate wage xs).1, (validate wage xs).2 ++ [mkInvalid t "negative amount"])) ∧
    (0 ≤ t.amount →
      (∃ u ∈ (validate wage xs).1, u.date = t.date ∧ u.amount = t.amount) →
      validate wage (xs ++ [t]) =
        ((validate wage xs).1, (validate wage xs).2 ++ [mkInvalid t "duplicate transaction"])) ∧
    (0 ≤ t.amount →
      (∀ u ∈ (validate wage xs).1, ¬(u.date = t.date ∧ u.amount = t.amount)) →
      validate wage (xs ++ [t]) = ((validate wage xs).1 ++ [t], (validate wage xs).2)) ∧
    (0 ≤ t.amount →
      validate wage [t, t] = ([t], [mkInvalid t "duplicate transaction"])) := by
  refine ⟨?_, ?_, ?_, ?_⟩
  · intro h
    rw [validate_append_singleton, validateStep_neg _ h]
  · intro h hdup
    rw [validate_append_singleton, validateStep_dup _ (not_lt.2 h)]
    simp only [List.any_eq_true, decide_eq_true_eq]
    exact hdup
  · intro h hnodup
    have hd : ((validate wage xs).1.any fun u =>
        decide (u.date = t.date ∧ u.amount = t.amount)) = false := by
      rw [List.any_eq_false]
      intro u hu
      simpa using hnodup u hu
    rw [validate_append_singleton, validateStep_ok _ (not_lt.2 h) hd]
  · intro h
    have h1 : validate wage [t, t] = validateStep (validateStep ([], []) t) t := rfl
    have e1 : validateStep ([], []) t = ([t], []) :=
      validateStep_ok _ (not_lt.2 h) (by simp)
    have e2 : validateStep ([t], []) t = ([t], [mkInvalid t "duplicate transaction"]) := by
      apply validateStep_dup _ (not_lt.2 h)
      simp
    rw [h1, e1, e2]

/-- C2 witness: two identical non-negative transactions — the first is kept
valid, the second rejected as a duplicate. -/
theorem validate_classification_witness :
    validate 0 [⟨0, 250, 300, 50⟩, ⟨0, 250, 300, 50⟩] =
      ([⟨0, 250, 300, 50⟩], [mkInvalid ⟨0, 250, 300, 50⟩ "duplicate transaction"]) :=
  (validate_classification 0 [] ⟨0, 250, 300, 50⟩).2.2.2 (by norm_num)

theorem validate_foldl_invariant (ts : List Transaction)
    (acc : List Transaction × List InvalidTransaction) :
    ((ts.foldl validateStep acc).1 ++ (ts.foldl validateStep acc).2.map underlyingTx).Perm
      ((acc.1 ++ acc.2.map underlyingTx) ++ ts) ∧
    ∀ inv ∈ (ts.foldl validateStep acc).2,
      inv ∈ acc.2 ∨ inv.message = "negative amount" ∨
        inv.message = "duplicate transaction" := by
  induction ts generalizing acc with
  | nil =>
    constructor
    · simp
    · intro inv h
      exact Or.inl h
  | cons t ts ih =>
    have hstep : (t :: ts).foldl validateStep acc = ts.foldl validateStep (validateStep acc t) := rfl
    rw [hstep]
    obtain ⟨ihp, ihm⟩ := ih (validateStep acc t)
    have hbr : ((validateStep acc t).1 ++ (validateStep acc t).2.map underlyingTx).Perm
        ((acc.1 ++ acc.2.map underlyingTx) ++ [t]) ∧
        ∀ inv ∈ (validateStep acc t).2,
          inv ∈ acc.2 ∨ inv.message = "negative amount" ∨
            inv.message = "duplicate transaction" := by
      by_cases hneg : t.amount < 0
      · rw [validateStep_neg _ hneg]
        constructor
        · simp only [List.map_append, List.map_cons, List.map_nil,
            underlyingTx_mkInvalid, List.append_assoc]
          exact List.Perm.refl _
        · intro inv hmem
          rcases List.mem_append.1 hmem with h' | h'
          · exact Or.inl h'
          · rw [List.mem_singleton] at h'
            subst h'
            exact Or.inr (Or.inl rfl)
      · by_cases hdup :
          (acc.1.any fun u => decide (u.date = t.date ∧ u.amount = t.amount)) = true
        · rw [validateStep_dup _ hneg hdup]
          constructor
          · simp only [List.map_append, List.map_cons, List.map_nil,
              underlyingTx_mkInvalid, List.append_assoc]
            exact List.Perm.refl _
          · intro inv hmem
            rcases List.mem_append.1 hmem with h' | h'
            · exact Or.inl h'
            · rw [List.mem_singleton] at h'
              subst h'
              exact Or.inr (Or.inr rfl)
        · rw [validateStep_ok _ hneg (Bool.not_eq_true _ ▸ hdup)]
          constructor
          · rw [List.append_assoc, List.append_assoc]
            exact List.Perm.append_left acc.1 List.perm_append_comm
          · intro inv hmem
            exact Or.inl hmem
    constructor
    · refine ihp.trans ?_
      have heq : ((acc.1 ++ acc.2.map underlyingTx) ++ (t :: ts)) =
          (((acc.1 ++ acc.2.map underlyingTx) ++ [t]) ++ ts) := by
        simp
      rw [heq]
      exact hbr.1.append_right ts
    · intro inv hmem
      rcases ihm inv hmem with h | h | h
      · exact hbr.2 inv h
      · exact Or.inr (Or.inl h)
      · exact Or.inr (Or.inr h)

/-- C9: the validator always returns both lists, they cover the input
exactly once (the valid list together with the transactions underlying the
invalid list is a permutation of the input), and every rejected item
carries one of the two diagnostic messages; no input aborts the batch. -/
theorem validate_partition_covers (wage : ℚ) (ts : List Transaction) :
    ((validate wage ts).1 ++ (validate wage ts).2.map underlyingTx).Perm ts ∧
    ∀ inv ∈ (validate wage ts).2,
      inv.message = "negative amount" ∨ inv.message = "duplicate transaction" := by
  obtain ⟨hp, hm⟩ := validate_foldl_invariant ts ([], [])
  constructor
  · simpa [validate] using hp
  · intro inv hmem
    rcases hm inv hmem with h | h | h
    · exact absurd h (List.not_mem_nil inv)
    · exact Or.inl h
    · exact Or.inr h

/-- C9 witness: a negative transaction is covered by the invalid side with
the "negative amount" message and the partition still covers the input. -/
theorem validate_partition_covers_witness :
    ((validate 0 [⟨0, -10, 0, 10⟩]).1 ++
        (validate 0 [⟨0, -10, 0, 10⟩]).2.map underlyingTx).Perm [⟨0, -10, 0, 10⟩] ∧
      ((mkInvalid ⟨0, -10, 0, 10⟩ "negative amount").message = "negative amount" ∨
        (mkInvalid ⟨0, -10, 0, 10⟩ "negative amount").message = "duplicate transaction") := by
  constructor
  · exact (validate_partition_covers 0 [⟨0, -10, 0, 10⟩]).1
  · apply (validate_partition_covers 0 [⟨0, -10, 0, 10⟩]).2
    rw [show validate 0 [⟨0, -10, 0, 10⟩] = validateStep ([], []) ⟨0, -10, 0, 10⟩ from rfl,
      validateStep_neg _ (by norm_num)]
    simp

/-! ## C4 and C5: the period rule engine -/

theorem foldl_add_eq_sum {α : Type} (g : α → ℚ) (l : List α) (c : ℚ) :
    l.foldl (fun acc x => acc + g x) c = c + (l.map g).sum := by
  induction l generalizing c with
  | nil => simp
  | cons x xs ih =>
    simp only [List.foldl_cons, List.map_cons, List.sum_cons, ih]
    ring

theorem sum_map_ite_filter {α : Type} (p : α → Prop) [DecidablePred p]
    (f : α → ℚ) (l : List α) :
    (l.map fun x => if p x then f x else 0).sum =
      ((l.filter fun x => decide (p x)).map f).sum := by
  induction l with
  | nil => simp
  | cons x xs ih =>
    by_cases hx : p x
    · simp [hx, ih]
    · simp [hx, ih]

theorem applyP_eq_base_mul (ps : List PPeriod) (d : ℤ) (base : ℚ) :
    applyP ps d base =
      base * (1 + ((ps.filter fun pp =>
        decide (containsDate pp.start pp.«end» d)).map fun pp => pp.extra).sum / 100) := by
  have h1 : applyP ps d base =
      ps.foldl (fun acc pp =>
        acc + (if containsDate pp.start pp.«end» d then base * pp.extra / 100 else 0)) base := by
    rw [applyP]
    congr 1
    funext acc pp
    by_cases hc : containsDate pp.start pp.«end» d
    · simp [hc]
    · simp [hc]
  rw [h1, foldl_add_eq_sum, sum_map_ite_filter]
  have h2 : ((ps.filter fun pp => decide (containsDate pp.start pp.«end» d)).map
      fun pp => base * pp.extra / 100).sum =
      base * ((ps.filter fun pp => decide (containsDate pp.start pp.«end» d)).map
        fun pp => pp.extra).sum / 100 := by
    induction (ps.filter fun pp => decide (containsDate pp.start pp.«end» d)) with
    | nil => simp
    | cons x xs ih =>
      simp only [List.map_cons, List.sum_cons, ih]
      ring
  rw [h2]
  ring

theorem applyP_perm {ps ps' : List PPeriod} (h : ps.Perm ps') (d : ℤ) (base : ℚ) :
    applyP ps d base = applyP ps' d base := by
  rw [applyP_eq_base_mul, applyP_eq_base_mul]
  have hsum : ((ps.filter fun pp =>
        decide (containsDate pp.start pp.«end» d)).map fun pp => pp.extra).sum =
      ((ps'.filter fun pp =>
        decide (containsDate pp.start pp.«end» d)).map fun pp => pp.extra).sum :=
    ((h.filter _).map _).sum_eq
  rw [hsum]

/-- C4: in the P pass each matching period contributes
`base * extra / 100` computed against the post-Q remanent `base`, so the
final remanent is `base * (1 + (sum of matching extras) / 100)` and the
result does not depend on the order of the `PPeriod` array. -/
theorem applyPeriods_p_pass (valid : List Transaction) (qs : List QPeriod)
    (ps ps' : List PPeriod) (ks : List KPeriod) (hperm : ps.Perm ps') :
    applyPeriods valid qs ps ks = applyPeriods valid qs ps' ks ∧
    ∀ (i : ℕ) (h : i < valid.length),
      ((applyPeriods valid qs ps ks).get ⟨i, by simpa [applyPeriods] using h⟩).remanent =
        applyQ qs (valid.get ⟨i, h⟩).date (valid.get ⟨i, h⟩).remanent *
          (1 + ((ps.filter fun pp =>
            decide (containsDate pp.start pp.«end» (valid.get ⟨i, h⟩).date)).map
              fun pp => pp.extra).sum / 100) := by
  constructor
  · rw [applyPeriods, applyPeriods]
    apply List.map_congr_left
    intro t _
    rw [applyP_perm hperm]
  · intro i h
    simp only [applyPeriods, List.get_map]
    rw [applyP_eq_base_mul]

/-- C4 witness: one transaction dated 5 with post-Q remanent 57; the two
P periods in either order give remanent `57 * (1 + 30/100)`. -/
theorem applyPeriods_p_pass_witness :
    applyPeriods [⟨5, 250, 300, 50⟩] [⟨7, 0, 10⟩]
        [⟨30, 0, 10⟩, ⟨10, 20, 30⟩] [] =
      applyPeriods [⟨5, 250, 300, 50⟩] [⟨7, 0, 10⟩]
        [⟨10, 20, 30⟩, ⟨30, 0, 10⟩] [] ∧
    ((applyPeriods [⟨5, 250, 300, 50⟩] [⟨7, 0, 10⟩]
        [⟨30, 0, 10⟩, ⟨10, 20, 30⟩] []).get ⟨0, by simp [applyPeriods]⟩).remanent =
      applyQ [⟨7, 0, 10⟩] 5 50 *
        (1 + ((([⟨30, 0, 10⟩, ⟨10, 20, 30⟩] : List PPeriod).filter fun pp =>
          decide (containsDate pp.start pp.«end» 5)).map fun pp => pp.extra).sum / 100) := by
  obtain ⟨h1, h2⟩ := applyPeriods_p_pass [⟨5, 250, 300, 50⟩] [⟨7, 0, 10⟩]
    [⟨30, 0, 10⟩, ⟨10, 20, 30⟩] [⟨10, 20, 30⟩, ⟨30, 0, 10⟩] []
    (List.Perm.swap _ _ _)
  exact ⟨h1, h2 0 (by norm_num)⟩

/-- C5: the period engine returns every valid transaction (same length,
dates, amounts and ceilings preserved positionally) and `inKPeriod` is true
exactly when the date lies in at least one K period. -/
theorem applyPeriods_k_tagging (valid : List Transaction) (qs : List QPeriod)
    (ps : List PPeriod) (ks : List KPeriod) :
    (applyPeriods valid qs ps ks).length = valid.length ∧
    ∀ (i : ℕ) (h : i < valid.length),
      ((applyPeriods valid qs ps ks).get ⟨i, by simpa [applyPeriods] using h⟩).date =
          (valid.get ⟨i, h⟩).date ∧
      ((applyPeriods valid qs ps ks).get ⟨i, by simpa [applyPeriods] using h⟩).amount =
          (valid.get ⟨i, h⟩).amount ∧
      ((applyPeriods valid qs ps ks).get ⟨i, by simpa [applyPeriods] using h⟩).ceiling =
          (valid.get ⟨i, h⟩).ceiling ∧
      (((applyPeriods valid qs ps ks).get
          ⟨i, by simpa [applyPeriods] using h⟩).inKPeriod = true ↔
        ∃ kp ∈ ks, kp.start ≤ (valid.get ⟨i, h⟩).date ∧
          (valid.get ⟨i, h⟩).date ≤ kp.«end») := by
  refine ⟨by simp [applyPeriods], ?_⟩
  intro i h
  have hg : (applyPeriods valid qs ps ks).get ⟨i, by simpa [applyPeriods] using h⟩ =
      ⟨(valid.get ⟨i, h⟩).date, (valid.get ⟨i, h⟩).amount, (valid.get ⟨i, h⟩).ceiling,
        applyP ps (valid.get ⟨i, h⟩).date
          (applyQ qs (valid.get ⟨i, h⟩).date (valid.get ⟨i, h⟩).remanent),
        inAnyK ks (valid.get ⟨i, h⟩).date⟩ := by
    simp [applyPeriods]
  rw [hg]
  refine ⟨rfl, rfl, rfl, ?_⟩
  show inAnyK ks (valid.get ⟨i, h⟩).date = true ↔ _
  rw [inAnyK, List.any_eq_true]
  constructor
  · rintro ⟨kp, hkp, hc⟩
    rw [decide_eq_true_eq] at hc
    exact ⟨kp, hkp, hc.1, hc.2⟩
  · rintro ⟨kp, hkp, h1, h2⟩
    exact ⟨kp, hkp, by rw [decide_eq_true_eq]; exact ⟨h1, h2⟩⟩

/-- C5 witness: a transaction dated 5 with a single K period `[0, 10]` is
returned with `inKPeriod = true`, witnessed by that period. -/
theorem applyPeriods_k_tagging_witness :
    (applyPeriods [⟨5, 250, 300, 50⟩] [] [] [⟨0, 10⟩]).length = 1 ∧
    (((applyPeriods [⟨5, 250, 300, 50⟩] [] [] [⟨0, 10⟩]).get
        ⟨0, by simp [applyPeriods]⟩).inKPeriod = true ↔
      ∃ kp ∈ [(⟨0, 10⟩ : KPeriod)], kp.start ≤ (5 : ℤ) ∧ (5 : ℤ) ≤ kp.«end») := by
  obtain ⟨h1, h2⟩ := applyPeriods_k_tagging [⟨5, 250, 300, 50⟩] [] [] [⟨0, 10⟩]
  obtain ⟨-, -, -, h4⟩ := h2 0 (by norm_num)
  exact ⟨h1, h4⟩

/-! ## C3, C6 and C7: the returns engine and the tax calculator -/

theorem slabTax_mono (bands : List TaxBand) (hr : ∀ b ∈ bands, 0 ≤ b.rate)
    {w₁ w₂ : ℚ} (hw : w₁ ≤ w₂) : slabTax bands w₁ ≤ slabTax bands w₂ := by
  induction bands with
  | nil => simp [slabTax]
  | cons b bs ih =>
    simp only [slabTax, List.map_cons, List.sum_cons]
    apply add_le_add
    · apply mul_le_mul_of_nonneg_left _ (hr b (List.mem_cons_self b bs))
      apply max_le_max le_rfl
      apply sub_le_sub_right
      exact min_le_min hw le_rfl
    · exact ih fun x hx => hr x (List.mem_cons_of_mem _ hx)

theorem profitOf_nps_lt_index (inflation : ℚ) (age : ℕ) (amt : ℚ)
    (hamt : 0 < amt) (hy : 1 ≤ 60 - age)
    (hrate : 0 ≤ 1 + (npsStrategy.annualRate - inflation)) :
    profitOf npsStrategy inflation age amt < profitOf indexStrategy inflation age amt := by
  rw [profitOf, profitOf]
  have hlt : 1 + (npsStrategy.annualRate - inflation) <
      1 + (indexStrategy.annualRate - inflation) := by
    simp only [npsStrategy, indexStrategy]
    norm_num
  exact mul_lt_mul_of_pos_left
    (sub_lt_sub_right (pow_lt_pow_left hlt hrate (Nat.one_le_iff_ne_zero.1 hy)) 1) hamt

/-- C7: the returns totals are the sums of `amount` and `ceiling` over
exactly the transactions surviving validation. -/
theorem returns_totals (bands : List TaxBand) (cap : ℚ) (strat : Strategy)
    (age : ℕ) (wage inflation : ℚ) (qs : List QPeriod) (ps : List PPeriod)
    (ks : List KPeriod) (es : List Expense) :
    (compute bands cap strat age wage inflation qs ps ks es).totalTransactionAmount =
      ((validate wage (parse es)).1.map fun t => t.amount).sum ∧
    (compute bands cap strat age wage inflation qs ps ks es).totalCeiling =
      ((validate wage (parse es)).1.map fun t => t.ceiling).sum := by
  constructor
  · show ((adjustedValid wage qs ps ks es).map fun t => t.amount).sum = _
    rw [adjustedValid, applyPeriods, List.map_map]
    rfl
  · show ((adjustedValid wage qs ps ks es).map fun t => t.ceiling).sum = _
    rw [adjustedValid, applyPeriods, List.map_map]
    rfl

/-- C3: with `age ≤ 60`, the years to retirement are exactly `60 - age` and
every savings row's profit is
`amount * ((1 + (annualRate - inflation)) ^ (60 - age) - 1)`, where the
row's amount is the summed adjusted remanent of the bucket attributed to
its K period. -/
theorem returns_profit_formula (bands : List TaxBand) (cap : ℚ) (strat : Strategy)
    (age : ℕ) (wage inflation : ℚ) (qs : List QPeriod) (ps : List PPeriod)
    (ks : List KPeriod) (es : List Expense) (hage : age ≤ 60) :
    (60 - age) + age = 60 ∧
    ∀ row ∈ (compute bands cap strat age wage inflation qs ps ks es).savingsByDates,
      row.profit = row.amount *
          ((1 + (strat.annualRate - inflation)) ^ (60 - age) - 1) ∧
      ∃ ikp ∈ ks.enum, row.start = ikp.2.start ∧ row.«end» = ikp.2.«end» ∧
        row.amount = ((bucketGroup ks (adjustedValid wage qs ps ks es) ikp.1).map
          fun t => t.remanent).sum := by
  refine ⟨Nat.sub_add_cancel hage, ?_⟩
  intro row hrow
  have hrow' : row ∈ (savingsBuckets ks (adjustedValid wage qs ps ks es)).map
      (rowOf bands cap strat wage inflation age) := hrow
  rw [List.mem_map] at hrow'
  obtain ⟨b, hb, rfl⟩ := hrow'
  constructor
  · rfl
  · rw [savingsBuckets, List.mem_filterMap] at hb
    obtain ⟨ik, hik, hsome⟩ := hb
    simp only at hsome
    split at hsome
    · exact absurd hsome (by simp)
    · rw [Option.some_inj] at hsome
      refine ⟨ik, hik, ?_, ?_, ?_⟩
      · show b.1.start = ik.2.start
        rw [← hsome]
      · show b.1.«end» = ik.2.«end»
        rw [← hsome]
      · show b.2 = _
        rw [← hsome]

theorem attributedK_single : attributedK [⟨0, 10⟩] 5 = some (0, ⟨0, 10⟩) := by
  decide

theorem savingsBuckets_single (a c r : ℚ) :
    savingsBuckets [⟨0, 10⟩] [⟨5, a, c, r, true⟩] = [(⟨0, 10⟩, r)] := by
  have hbg : bucketGroup [⟨0, 10⟩] [⟨5, a, c, r, true⟩] 0 = [⟨5, a, c, r, true⟩] := by
    simp [bucketGroup, attributedK_single]
  rw [savingsBuckets]
  simp [List.enum, List.enumFrom, hbg]

theorem adjustedValid_single (wage amt : ℚ) (h : ¬amt < 0) :
    adjustedValid wage [] [] [⟨0, 10⟩] [⟨5, amt⟩] =
      [⟨5, amt, ceilingOf amt, ceilingOf amt - amt, true⟩] := by
  rw [adjustedValid]
  have hv : validate wage (parse [⟨5, amt⟩]) =
      ([⟨5, amt, ceilingOf amt, ceilingOf amt - amt⟩], []) := by
    show validateStep ([], []) (mkTransaction ⟨5, amt⟩) = _
    rw [validateStep_ok _ h (by simp)]
    rfl
  rw [hv]
  norm_num [applyPeriods, applyQ, applyP, inAnyK, containsDate]

theorem compute_single_rows (bands : List TaxBand) (cap : ℚ) (strat : Strategy)
    (age : ℕ) (wage inflation amt : ℚ) (h : ¬amt < 0) :
    (compute bands cap strat age wage inflation [] [] [⟨0, 10⟩] [⟨5, amt⟩]).savingsByDates =
      [rowOf bands cap strat wage inflation age (⟨0, 10⟩, ceilingOf amt - amt)] := by
  show ((savingsBuckets [⟨0, 10⟩] (adjustedValid wage [] [] [⟨0, 10⟩] [⟨5, amt⟩])).map
      (rowOf bands cap strat wage inflation age)) = _
  rw [adjustedValid_single wage amt h, savingsBuckets_single]
  rfl

/-- C3 witness: a single expense of 250 in the K window, Index strategy,
age 59 — the unique row has amount 50 and profit `50 * 14.49% = 1449/200`. -/
theorem returns_profit_formula_witness :
    (60 - 59) + 59 = 60 ∧
    ((⟨0, 10, 50, 1449/200, 0⟩ : SavingsByDate).profit =
        (⟨0, 10, 50, 1449/200, 0⟩ : SavingsByDate).amount *
          ((1 + (indexStrategy.annualRate - 0)) ^ (60 - 59) - 1) ∧
      ∃ ikp ∈ ([⟨0, 10⟩] : List KPeriod).enum,
        (⟨0, 10, 50, 1449/200, 0⟩ : SavingsByDate).start = ikp.2.start ∧
        (⟨0, 10, 50, 1449/200, 0⟩ : SavingsByDate).«end» = ikp.2.«end» ∧
        (⟨0, 10, 50, 1449/200, 0⟩ : SavingsByDate).amount =
          ((bucketGroup [⟨0, 10⟩] (adjustedValid 0 [] [] [⟨0, 10⟩] [⟨5, 250⟩]) ikp.1).map
            fun t => t.remanent).sum) := by
  have hc250 : ceilingOf 250 = 300 := by
    rw [ceilingOf_eval 250 3 (by norm_num) (by norm_num) (by norm_num)]
    norm_num
  have hrows : (compute [] 0 indexStrategy 59 0 0 [] [] [⟨0, 10⟩]
      [⟨5, 250⟩]).savingsByDates = [⟨0, 10, 50, 1449/200, 0⟩] := by
    rw [compute_single_rows [] 0 indexStrategy 59 0 0 250 (by norm_num), hc250]
    norm_num [rowOf, profitOf, indexStrategy]
  obtain ⟨h1, h2⟩ := returns_profit_formula [] 0 indexStrategy 59 0 0 [] []
    [⟨0, 10⟩] [⟨5, 250⟩] (by norm_num)
  refine ⟨h1, h2 _ ?_⟩
  rw [hrows]
  exact List.mem_singleton.2 rfl

/-- C6 counterexample: on the input with a single expense of 100 (remanent
0) inside one K period, at age 59, the Index and NPS profits of the unique
bucket are both 0 — the Index profit is not strictly greater. -/
theorem returns_strict_profit_counterexample :
    (compute [] 0 indexStrategy 59 0 0 [] [] [⟨0, 10⟩] [⟨5, 100⟩]).savingsByDates.map
        (fun row => row.profit) =
      (compute [] 0 npsStrategy 59 0 0 [] [] [⟨0, 10⟩] [⟨5, 100⟩]).savingsByDates.map
        (fun row => row.profit) ∧
    (compute [] 0 npsStrategy 59 0 0 [] [] [⟨0, 10⟩] [⟨5, 100⟩]).savingsByDates ≠ [] := by
  have hc100 : ceilingOf 100 = 100 := by
    rw [ceilingOf_eval 100 1 (by norm_num) (by norm_num) (by norm_num)]
    norm_num
  have hri : (compute [] 0 indexStrategy 59 0 0 [] [] [⟨0, 10⟩]
      [⟨5, 100⟩]).savingsByDates = [⟨0, 10, 0, 0, 0⟩] := by
    rw [compute_single_rows [] 0 indexStrategy 59 0 0 100 (by norm_num), hc100]
    norm_num [rowOf, profitOf, indexStrategy]
  have hrn : (compute [] 0 npsStrategy 59 0 0 [] [] [⟨0, 10⟩]
      [⟨5, 100⟩]).savingsByDates = [⟨0, 10, 0, 0, 0⟩] := by
    rw [compute_single_rows [] 0 npsStrategy 59 0 0 100 (by norm_num), hc100]
    norm_num [rowOf, profitOf, npsStrategy, taxBenefitOf, slabTax]
  rw [hri, hrn]
  exact ⟨rfl, by simp⟩

theorem get_map_eq {α β : Type} (f : α → β) (l : List α) (j : ℕ)
    (h : j < (l.map f).length) (h' : j < l.length) :
    (l.map f).get ⟨j, h⟩ = f (l.get ⟨j, h'⟩) := by
  simp

/-- C6 (amended): on the same input the Index and NPS runs have identical
totals and positionally corresponding rows with equal window and amount;
the Index tax benefit is always 0 and the NPS one is non-negative (for
non-negative slab rates, bucket amount and cap); the Index profit strictly
exceeds the NPS profit whenever the bucket amount is positive, at least one
year remains to retirement, and the NPS effective rate is at least -100%. -/
theorem returns_strategy_comparison (bands : List TaxBand) (cap : ℚ) (age : ℕ)
    (wage inflation : ℚ) (qs : List QPeriod) (ps : List PPeriod)
    (ks : List KPeriod) (es : List Expense) :
    (compute bands cap indexStrategy age wage inflation qs ps ks es).totalTransactionAmount =
      (compute bands cap npsStrategy age wage inflation qs ps ks es).totalTransactionAmount ∧
    (compute bands cap indexStrategy age wage inflation qs ps ks es).totalCeiling =
      (compute bands cap npsStrategy age wage inflation qs ps ks es).totalCeiling ∧
    (compute bands cap indexStrategy age wage inflation qs ps ks es).savingsByDates.length =
      (compute bands cap npsStrategy age wage inflation qs ps ks es).savingsByDates.length ∧
    ∀ (j : ℕ)
      (hj : j < (compute bands cap indexStrategy age wage inflation qs ps ks
        es).savingsByDates.length)
      (hj' : j < (compute bands cap npsStrategy age wage inflation qs ps ks
        es).savingsByDates.length),
      ((compute bands cap indexStrategy age wage inflation qs ps ks
          es).savingsByDates.get ⟨j, hj⟩).start =
        ((compute bands cap npsStrategy age wage inflation qs ps ks
          es).savingsByDates.get ⟨j, hj'⟩).start ∧
      ((compute bands cap indexStrategy age wage inflation qs ps ks
          es).savingsByDates.get ⟨j, hj⟩).«end» =
        ((compute bands cap npsStrategy age wage inflation qs ps ks
          es).savingsByDates.get ⟨j, hj'⟩).«end» ∧
      ((compute bands cap indexStrategy age wage inflation qs ps ks
          es).savingsByDates.get ⟨j, hj⟩).amount =
        ((compute bands cap npsStrategy age wage inflation qs ps ks
          es).savingsByDates.get ⟨j, hj'⟩).amount ∧
      ((compute bands cap indexStrategy age wage inflation qs ps ks
          es).savingsByDates.get ⟨j, hj⟩).taxBenefit = 0 ∧
      ((∀ b ∈ bands, 0 ≤ b.rate) →
        0 ≤ ((compute bands cap npsStrategy age wage inflation qs ps ks
          es).savingsByDates.get ⟨j, hj'⟩).amount → 0 ≤ cap →
        0 ≤ ((compute bands cap npsStrategy age wage inflation qs ps ks
          es).savingsByDates.get ⟨j, hj'⟩).taxBenefit) ∧
      (0 < ((compute bands cap npsStrategy age wage inflation qs ps ks
          es).savingsByDates.get ⟨j, hj'⟩).amount → 1 ≤ 60 - age →
        0 ≤ 1 + (npsStrategy.annualRate - inflation) →
        ((compute bands cap npsStrategy age wage inflation qs ps ks
          es).savingsByDates.get ⟨j, hj'⟩).profit <
        ((compute bands cap indexStrategy age wage inflation qs ps ks
          es).savingsByDates.get ⟨j, hj⟩).profit) := by
  have hci : (compute bands cap indexStrategy age wage inflation qs ps ks
      es).savingsByDates = (savingsBuckets ks (adjustedValid wage qs ps ks es)).map
        (rowOf bands cap indexStrategy wage inflation age) := rfl
  have hcn : (compute bands cap npsStrategy age wage inflation qs ps ks
      es).savingsByDates = (savingsBuckets ks (adjustedValid wage qs ps ks es)).map
        (rowOf bands cap npsStrategy wage inflation age) := rfl
  refine ⟨rfl, rfl, by rw [hci, hcn]; simp, ?_⟩
  intro j hj hj'
  have hjB : j < (savingsBuckets ks (adjustedValid wage qs ps ks es)).length := by
    rw [hci] at hj
    simpa using hj
  have hgi : (compute bands cap indexStrategy age wage inflation qs ps ks
      es).savingsByDates.get ⟨j, hj⟩ =
      rowOf bands cap indexStrategy wage inflation age
        ((savingsBuckets ks (adjustedValid wage qs ps ks es)).get ⟨j, hjB⟩) :=
    get_map_eq _ _ j hj hjB
  have hgn : (compute bands cap npsStrategy age wage inflation qs ps ks
      es).savingsByDates.get ⟨j, hj'⟩ =
      rowOf bands cap npsStrategy wage inflation age
        ((savingsBuckets ks (adjustedValid wage qs ps ks es)).get ⟨j, hjB⟩) :=
    get_map_eq _ _ j hj' hjB
  rw [hgi, hgn]
  refine ⟨rfl, rfl, rfl, rfl, ?_, ?_⟩
  · intro hr h0 hcap
    show 0 ≤ taxBenefitOf bands wage
      (min ((savingsBuckets ks (adjustedValid wage qs ps ks es)).get ⟨j, hjB⟩).2 cap)
    rw [taxBenefitOf]
    have h0' : (0:ℚ) ≤ ((savingsBuckets ks (adjustedValid wage qs ps ks es)).get ⟨j, hjB⟩).2 := h0
    have hd : (0:ℚ) ≤
        min ((savingsBuckets ks (adjustedValid wage qs ps ks es)).get ⟨j, hjB⟩).2 cap :=
      le_min h0' hcap
    have hmono := slabTax_mono bands hr
      (show wage - min ((savingsBuckets ks
        (adjustedValid wage qs ps ks es)).get ⟨j, hjB⟩).2 cap ≤ wage by linarith)
    linarith
  · intro hpos hy hrate
    exact profitOf_nps_lt_index inflation age _ hpos hy hrate

theorem get_singleton_eq {α : Type} (l : List α) (x : α) (hlx : l = [x])
    (h : 0 < l.length) : l.get ⟨0, h⟩ = x := by
  subst hlx
  rfl

/-- C6 witness: one expense of 250 (remanent 50) in the K window, age 59,
zero inflation, a single 10% tax band — totals agree, the NPS profit is
strictly below the Index profit, the NPS tax benefit is non-negative and
the Index tax benefit is 0. -/
theorem returns_strategy_comparison_witness :
    (compute [⟨0, 100000, 1/10⟩] 150000 indexStrategy 59 50000 0 [] []
        [⟨0, 10⟩] [⟨5, 250⟩]).totalTransactionAmount =
      (compute [⟨0, 100000, 1/10⟩] 150000 npsStrategy 59 50000 0 [] []
        [⟨0, 10⟩] [⟨5, 250⟩]).totalTransactionAmount ∧
    ((compute [⟨0, 100000, 1/10⟩] 150000 npsStrategy 59 50000 0 [] []
        [⟨0, 10⟩] [⟨5, 250⟩]).savingsByDates.get
        ⟨0, by rw [compute_single_rows [⟨0, 100000, 1/10⟩] 150000 npsStrategy 59
          50000 0 250 (by norm_num)]; norm_num⟩).profit <
      ((compute [⟨0, 100000, 1/10⟩] 150000 indexStrategy 59 50000 0 [] []
        [⟨0, 10⟩] [⟨5, 250⟩]).savingsByDates.get
        ⟨0, by rw [compute_single_rows [⟨0, 100000, 1/10⟩] 150000 indexStrategy 59
          50000 0 250 (by norm_num)]; norm_num⟩).profit ∧
    0 ≤ ((compute [⟨0, 100000, 1/10⟩] 150000 npsStrategy 59 50000 0 [] []
        [⟨0, 10⟩] [⟨5, 250⟩]).savingsByDates.get
        ⟨0, by rw [compute_single_rows [⟨0, 100000, 1/10⟩] 150000 npsStrategy 59
          50000 0 250 (by norm_num)]; norm_num⟩).taxBenefit ∧
    ((compute [⟨0, 100000, 1/10⟩] 150000 indexStrategy 59 50000 0 [] []
        [⟨0, 10⟩] [⟨5, 250⟩]).savingsByDates.get
        ⟨0, by rw [compute_single_rows [⟨0, 100000, 1/10⟩] 150000 indexStrategy 59
          50000 0 250 (by norm_num)]; norm_num⟩).taxBenefit = 0 := by
  have hc250 : ceilingOf 250 = 300 := by
    rw [ceilingOf_eval 250 3 (by norm_num) (by norm_num) (by norm_num)]
    norm_num
  have hrn : (compute [⟨0, 100000, 1/10⟩] 150000 npsStrategy 59 50000 0 [] []
      [⟨0, 10⟩] [⟨5, 250⟩]).savingsByDates =
      [rowOf [⟨0, 100000, 1/10⟩] 150000 npsStrategy 50000 0 59 (⟨0, 10⟩, 50)] := by
    rw [compute_single_rows [⟨0, 100000, 1/10⟩] 150000 npsStrategy 59 50000 0 250
      (by norm_num), hc250]
    norm_num
  have hri : (compute [⟨0, 100000, 1/10⟩] 150000 indexStrategy 59 50000 0 [] []
      [⟨0, 10⟩] [⟨5, 250⟩]).savingsByDates =
      [rowOf [⟨0, 100000, 1/10⟩] 150000 indexStrategy 50000 0 59 (⟨0, 10⟩, 50)] := by
    rw [compute_single_rows [⟨0, 100000, 1/10⟩] 150000 indexStrategy 59 50000 0 250
      (by norm_num), hc250]
    norm_num
  obtain ⟨h1, -, -, h4⟩ := returns_strategy_comparison [⟨0, 100000, 1/10⟩] 150000
    59 50000 0 [] [] [⟨0, 10⟩] [⟨5, 250⟩]
  obtain ⟨-, -, -, htaxI, htaxN, hprof⟩ := h4 0
    (by rw [hri]; norm_num) (by rw [hrn]; norm_num)
  have hgn : (compute [⟨0, 100000, 1/10⟩] 150000 npsStrategy 59 50000 0 [] []
      [⟨0, 10⟩] [⟨5, 250⟩]).savingsByDates.get ⟨0, by rw [hrn]; norm_num⟩ =
      rowOf [⟨0, 100000, 1/10⟩] 150000 npsStrategy 50000 0 59 (⟨0, 10⟩, 50) :=
    get_singleton_eq _ _ hrn _
  refine ⟨h1, ?_, ?_, htaxI⟩
  · apply hprof
    · rw [hgn]
      show (0:ℚ) < 50
      norm_num
    · norm_num
    · show (0:ℚ) ≤ 1 + (711/10000 - 0)
      norm_num
  · apply htaxN
    · intro b hb
      rw [List.mem_singleton] at hb
      subst hb
      norm_num
    · rw [hgn]
      show (0:ℚ) ≤ 50
      norm_num
    · norm_num

/-! ## C10: the frontend API client -/

/-- C10 counterexample: an `ok` response whose body is not valid JSON makes
`request` throw (the `res.json()` rejection) instead of returning a value,
so "returns the parsed JSON body exactly when res.ok is true" fails. -/
theorem request_ok_nonjson_counterexample :
    request ⟨true, 200, "OK", none⟩ = Except.error jsonParseFailureMsg ∧
    (⟨true, 200, "OK", none⟩ : HttpResponse).ok = true := by
  exact ⟨rfl, rfl⟩

theorem request_not_ok (status : ℕ) (statusText : String) (body : Option Json) :
    ∃ m, request ⟨false, status, statusText, body⟩ = Except.error m := by
  have hre : request ⟨false, status, statusText, body⟩ =
      (match (match body with
          | some j => getDetail j
          | none => getDetail (Json.obj [("detail", Json.str statusText)])) with
        | Except.error msg => Except.error msg
        | Except.ok d? =>
          Except.error
            (match d? with
              | some d => if jsTruthy d then jsString d else "HTTP " ++ toString status
              | none => "HTTP " ++ toString status)) := rfl
  rw [hre]
  cases hb : (match body with
      | some j => getDetail j
      | none => getDetail (Json.obj [("detail", Json.str statusText)])) with
  | error msg => exact ⟨msg, rfl⟩
  | ok d? =>
    cases d? with
    | none => exact ⟨_, rfl⟩
    | some d => exact ⟨_, rfl⟩

/-- C10 (amended): `request` returns a value exactly when `res.ok` is true
and the body parses as JSON, in which case it returns the parsed body; when
`res.ok` is false it never returns: it throws an `Error` whose message is
the error body's `detail` field when that body is a JSON object with a
non-empty string `detail`, the propagated `TypeError` when the body is JSON
`null` (reading `.detail` from `null` faults), the plain `HTTP <status>`
text when the body is JSON on which `detail` is undefined, and the status
text (or `HTTP <status>` when that is empty) when the body is not JSON. -/
theorem request_behaviour (res : HttpResponse) :
    ((∃ v, request res = Except.ok v) ↔ (res.ok = true ∧ res.body.isSome = true)) ∧
    (∀ j, res.ok = true → res.body = some j → request res = Except.ok j) ∧
    (res.ok = false → ∀ j s, res.body = some j →
      getDetail j = Except.ok (some (Json.str s)) → s ≠ "" →
      request res = Except.error s) ∧
    (res.ok = false → ∀ j, res.body = some j → getDetail j = Except.ok none →
      request res = Except.error ("HTTP " ++ toString res.status)) ∧
    (res.ok = false → res.body = some Json.null →
      request res = Except.error nullPropertyAccessMsg) ∧
    (res.ok = false → res.body = none →
      request res = Except.error
        (if res.statusText = "" then "HTTP " ++ toString res.status
         else res.statusText)) := by
  obtain ⟨ok, status, statusText, body⟩ := res
  refine ⟨?_, ?_, ?_, ?_, ?_, ?_⟩
  · constructor
    · rintro ⟨v, hv⟩
      cases ok with
      | false =>
        obtain ⟨m, hm⟩ := request_not_ok status statusText body
        rw [hm] at hv
        simp at hv
      | true =>
        cases body with
        | none =>
          rw [request] at hv
          simp at hv
        | some j => exact ⟨rfl, rfl⟩
    · rintro ⟨hok, hsome⟩
      cases body with
      | none => simp at hsome
      | some j =>
        subst hok
        exact ⟨j, rfl⟩
  · intro j hok hbody
    subst hok
    have hb : body = some j := hbody
    subst hb
    rfl
  · intro hok j s hbody hdet hs
    subst hok
    have hb : body = some j := hbody
    subst hb
    have hre : request ⟨false, status, statusText, some j⟩ =
        (match getDetail j with
          | Except.error msg => Except.error msg
          | Except.ok d? =>
            Except.error
              (match d? with
                | some d => if jsTruthy d then jsString d else "HTTP " ++ toString status
                | none => "HTTP " ++ toString status)) := rfl
    rw [hre, hdet]
    show Except.error (if jsTruthy (Json.str s) then jsString (Json.str s)
      else "HTTP " ++ toString status) = Except.error s
    simp only [jsTruthy, jsString]
    rw [if_pos (by simpa using hs)]
  · intro hok j hbody hdet
    subst hok
    have hb : body = some j := hbody
    subst hb
    have hre : request ⟨false, status, statusText, some j⟩ =
        (match getDetail j with
          | Except.error msg => Except.error msg
          | Except.ok d? =>
            Except.error
              (match d? with
                | some d => if jsTruthy d then jsString d else "HTTP " ++ toString status
                | none => "HTTP " ++ toString status)) := rfl
    rw [hre, hdet]
  · intro hok hbody
    subst hok
    have hb : body = some Json.null := hbody
    subst hb
    rfl
  · intro hok hbody
    subst hok
    have hb : body = none := hbody
    subst hb
    have hlk : getDetail (Json.obj [("detail", Json.str statusText)]) =
        Except.ok (some (Json.str statusText)) := by
      simp [getDetail, List.lookup]
    have hre : request ⟨false, status, statusText, none⟩ =
        (match getDetail (Json.obj [("detail", Json.str statusText)]) with
          | Except.error msg => Except.error msg
          | Except.ok d? =>
            Except.error
              (match d? with
                | some d => if jsTruthy d then jsString d else "HTTP " ++ toString status
                | none => "HTTP " ++ toString status)) := rfl
    rw [hre, hlk]
    show Except.error (if jsTruthy (Json.str statusText) then jsString (Json.str statusText)
      else "HTTP " ++ toString status) = _
    by_cases hst : statusText = ""
    · subst hst
      rw [if_pos rfl]
      simp [jsTruthy]
    · rw [if_neg hst]
      simp only [jsTruthy, jsString]
      rw [if_pos (by simpa using hst)]

/-- C10 witness: a 404 response with JSON body `{detail: "boom"}` throws
with message "boom"; an ok response with JSON body returns it; a non-ok
response with JSON body `null` propagates the `TypeError` from reading
`err.detail`. -/
theorem request_behaviour_witness :
    request ⟨false, 404, "Not Found", some (Json.obj [("detail", Json.str "boom")])⟩ =
      Except.error "boom" ∧
    request ⟨true, 200, "OK", some (Json.num 7)⟩ = Except.ok (Json.num 7) ∧
    request ⟨false, 500, "Server Error", some Json.null⟩ =
      Except.error nullPropertyAccessMsg := by
  refine ⟨?_, ?_, ?_⟩
  · exact (request_behaviour
      ⟨false, 404, "Not Found", some (Json.obj [("detail", Json.str "boom")])⟩).2.2.1
      rfl _ "boom" rfl (by simp [getDetail, List.lookup]) (by simp)
  · exact (request_behaviour ⟨true, 200, "OK", some (Json.num 7)⟩).2.1 _ rfl rfl
  · exact (request_behaviour ⟨false, 500, "Server Error", some Json.null⟩).2.2.2.2.1
      rfl rfl
